import Mathlib

/-!
# Verification of the skill-execution-tracker computation core

A shallow embedding of the repository's date-window utilities
(`src/lib/dateUtils.ts`), storage queries (`src/lib/storage.ts`), the
weekly report engine (`src/lib/reportUtils.ts`), and the log/skill
mutation paths (`src/hooks/useLogs.ts`, `src/hooks/useSkills.ts`,
`src/components/ExecutionLogger.tsx`), together with proofs of the
specification's testable properties.

Modelling conventions:
* JavaScript strings are `List Char` (UTF-16 code-unit sequences; all
  characters involved are ASCII, where code units and code points agree).
  JS relational operators on strings are code-unit lexicographic; they are
  embedded by `jsLtStr` / `jsLeStr` / `jsGeStr` below.
* JS `Date` values are civil calendar days `Civil` (year, month 1-12,
  day 1-31).  All operations of the core act at calendar-day granularity
  (`setHours` calls only pin the time to midnight / end of day), so the
  time-of-day component is dropped.  `setDate` arithmetic normalises
  out-of-range day-of-month values by calendar-day stepping, embedded by
  `nextDay` / `prevDay` / day-count conversion.
* JS numbers are embedded exactly: integer quantities (counts, goals) as
  `Int`, computed percentages as `ℚ`.
-/

namespace SkillTracker

/-- JavaScript strings as lists of characters. -/
abbrev JStr := List Char

/-! ## Decimal digits and number formatting (JS `String(n)` / `padStart`) -/

/-- The character for a decimal digit (`0 ≤ d ≤ 9` in all uses). -/
def digitChar (d : Nat) : Char := Char.ofNat (48 + d)

/-- Fuel-driven decimal digit extraction, most significant digit first.
The fuel (always supplied as `n + 1`) only makes the recursion structural. -/
def natDigitsAux : Nat → Nat → List Nat
  | 0, _ => []
  | fuel + 1, n => if n < 10 then [n] else natDigitsAux fuel (n / 10) ++ [n % 10]

/-- The decimal digits of `n`, most significant first (`[0]` for `0`). -/
def natDigits (n : Nat) : List Nat := natDigitsAux (n + 1) n

/-- JS `String(n)` for a non-negative number: its decimal digit string. -/
def natToChars (n : Nat) : List Char := (natDigits n).map digitChar

/-- JS `String(i)` for an integer: a leading minus sign when negative. -/
def intToChars (i : Int) : List Char :=
  if i < 0 then '-' :: natToChars i.natAbs else natToChars i.toNat

/-- JS `s.padStart(2, '0')`. -/
def pad2 (s : List Char) : List Char :=
  if s.length < 2 then List.replicate (2 - s.length) '0' ++ s else s

/-- Numeric value of a digit list, most significant first. -/
def digitsNum (ds : List Nat) : Nat := ds.foldl (fun a d => a * 10 + d) 0

/-- JS `Number(s)` restricted to strings of decimal digits (the only shape
the core ever feeds it: the pieces of a `YYYY-MM-DD` string). -/
def parseNat (cs : List Char) : Nat := cs.foldl (fun a c => a * 10 + (c.toNat - 48)) 0

/-! ## JS string splitting and comparison -/

/-- JS `s.split('-')`. -/
def splitDash : List Char → List (List Char)
  | [] => [[]]
  | c :: cs =>
    if c = '-' then [] :: splitDash cs
    else
      match splitDash cs with
      | [] => [[c]]
      | p :: ps => (c :: p) :: ps

/-- JS `a < b` on strings: code-unit lexicographic comparison. -/
def jsLtStr : List Char → List Char → Bool
  | [], [] => false
  | [], _ :: _ => true
  | _ :: _, [] => false
  | a :: as, b :: bs => if a < b then true else if b < a then false else jsLtStr as bs

/-- JS `a <= b` on strings (equivalent to `¬ (b < a)`: total order, no NaN). -/
def jsLeStr (a b : List Char) : Bool := !jsLtStr b a

/-- JS `a >= b` on strings (equivalent to `¬ (a < b)`). -/
def jsGeStr (a b : List Char) : Bool := !jsLtStr a b

/-! ### Basic digit lemmas -/

theorem natDigitsAux_irrel : ∀ (fuel fuel' n : Nat), n < fuel → n < fuel' →
    natDigitsAux fuel n = natDigitsAux fuel' n := by
  intro fuel
  induction fuel with
  | zero => intro fuel' n h; omega
  | succ f ih =>
    intro fuel' n h h'
    cases fuel' with
    | zero => omega
    | succ f' =>
      simp only [natDigitsAux]
      by_cases h10 : n < 10
      · simp [h10]
      · simp only [h10, if_false]
        have hd : n / 10 < n := Nat.div_lt_self (by omega) (by omega)
        rw [ih f' (n / 10) (by omega) (by omega)]

theorem natDigits_of_lt (n : Nat) (h : n < 10) : natDigits n = [n] := by
  simp [natDigits, natDigitsAux, h]

theorem natDigits_of_ge (n : Nat) (h : 10 ≤ n) :
    natDigits n = natDigits (n / 10) ++ [n % 10] := by
  have hd : n / 10 < n := Nat.div_lt_self (by omega) (by omega)
  show natDigitsAux (n + 1) n = _
  rw [show natDigitsAux (n + 1) n =
        if n < 10 then [n] else natDigitsAux n (n / 10) ++ [n % 10] from rfl]
  rw [if_neg (by omega)]
  rw [natDigitsAux_irrel n (n / 10 + 1) (n / 10) (by omega) (by omega)]
  rfl

theorem natDigits_lt_ten (n : Nat) : ∀ d ∈ natDigits n, d < 10 := by
  induction n using Nat.strong_induction_on with
  | _ n ih =>
    by_cases h : n < 10
    · rw [natDigits_of_lt n h]; simpa using h
    · rw [natDigits_of_ge n (by omega)]
      intro d hd
      rcases List.mem_append.1 hd with h1 | h1
      · exact ih (n / 10) (Nat.div_lt_self (by omega) (by omega)) d h1
      · simp at h1; omega

theorem natDigits_ne_nil (n : Nat) : natDigits n ≠ [] := by
  by_cases h : n < 10
  · rw [natDigits_of_lt n h]; simp
  · rw [natDigits_of_ge n (by omega)]; simp

theorem digitsNum_append (xs ys : List Nat) :
    digitsNum (xs ++ ys) = (ys.foldl (fun a d => a * 10 + d) (digitsNum xs)) := by
  simp [digitsNum, List.foldl_append]

theorem digitsNum_natDigits (n : Nat) : digitsNum (natDigits n) = n := by
  induction n using Nat.strong_induction_on with
  | _ n ih =>
    by_cases h : n < 10
    · rw [natDigits_of_lt n h]; simp [digitsNum]
    · rw [natDigits_of_ge n (by omega), digitsNum_append]
      rw [ih (n / 10) (Nat.div_lt_self (by omega) (by omega))]
      simp [digitsNum]
      omega

theorem toNat_digitChar (d : Nat) (h : d < 10) : (digitChar d).toNat = 48 + d := by
  interval_cases d <;> decide

theorem digitChar_ne_dash (d : Nat) (h : d < 10) : digitChar d ≠ '-' := by
  interval_cases d <;> decide

theorem natToChars_no_dash (n : Nat) : '-' ∉ natToChars n := by
  intro hmem
  simp only [natToChars, List.mem_map] at hmem
  obtain ⟨d, hd, hdc⟩ := hmem
  exact digitChar_ne_dash d (natDigits_lt_ten n d hd) hdc

theorem parseNat_foldl_from (ds : List Nat) : ∀ (a : Nat), (∀ d ∈ ds, d < 10) →
    (ds.map digitChar).foldl (fun a c => a * 10 + (c.toNat - 48)) a =
      ds.foldl (fun a d => a * 10 + d) a := by
  induction ds with
  | nil => intro a _; rfl
  | cons d ds ih =>
    intro a h
    simp only [List.map_cons, List.foldl_cons]
    rw [toNat_digitChar d (h d (by simp))]
    rw [ih (a * 10 + (48 + d - 48)) (fun x hx => h x (by simp [hx]))]
    congr 1
    omega

theorem parseNat_map_digitChar (ds : List Nat) (h : ∀ d ∈ ds, d < 10) :
    parseNat (ds.map digitChar) = digitsNum ds :=
  parseNat_foldl_from ds 0 h

theorem parseNat_natToChars (n : Nat) : parseNat (natToChars n) = n := by
  rw [natToChars, parseNat_map_digitChar _ (natDigits_lt_ten n), digitsNum_natDigits]

theorem splitDash_ne_nil (s : List Char) : splitDash s ≠ [] := by
  cases s with
  | nil => simp [splitDash]
  | cons c cs =>
    simp only [splitDash]
    by_cases h : c = '-'
    · simp [h]
    · simp only [h, if_false]
      cases splitDash cs <;> simp

theorem splitDash_of_no_dash (xs : List Char) (h : '-' ∉ xs) : splitDash xs = [xs] := by
  induction xs with
  | nil => rfl
  | cons c cs ih =>
    simp only [List.mem_cons, not_or] at h
    have hc : ¬(c = '-') := fun hce => h.1 hce.symm
    simp only [splitDash, if_neg hc]
    rw [ih h.2]

theorem splitDash_append (xs rest : List Char) (h : '-' ∉ xs) :
    splitDash (xs ++ '-' :: rest) = xs :: splitDash rest := by
  induction xs with
  | nil => simp [splitDash]
  | cons c cs ih =>
    simp only [List.mem_cons, not_or] at h
    have hc : ¬(c = '-') := fun hce => h.1 hce.symm
    rw [List.cons_append]
    simp only [splitDash, if_neg hc]
    rw [ih h.2]

theorem parseNat_replicate_zero (k : Nat) (cs : List Char) :
    parseNat (List.replicate k '0' ++ cs) = parseNat cs := by
  induction k with
  | zero => rfl
  | succ n ih =>
    rw [List.replicate_succ]
    simpa [parseNat] using ih

theorem digitChar_zero : digitChar 0 = '0' := rfl

theorem pad2_natToChars (m : Nat) (h : m ≤ 99) :
    pad2 (natToChars m) = [digitChar (m / 10), digitChar (m % 10)] := by
  by_cases h10 : m < 10
  · rw [natToChars, natDigits_of_lt m h10]
    rw [Nat.div_eq_of_lt h10, Nat.mod_eq_of_lt h10]
    simp [pad2, digitChar_zero, List.replicate]
  · rw [natToChars, natDigits_of_ge m (by omega), natDigits_of_lt (m / 10) (by omega)]
    simp [pad2]

theorem parseNat_pad2_natToChars (m : Nat) (h : m ≤ 99) :
    parseNat (pad2 (natToChars m)) = m := by
  rw [pad2_natToChars m h]
  rw [show [digitChar (m / 10), digitChar (m % 10)] =
        [m / 10, m % 10].map digitChar from rfl]
  rw [parseNat_map_digitChar _ (by intro d hd; simp at hd; omega)]
  simp [digitsNum]
  omega

theorem pad2_no_dash (s : List Char) (h : '-' ∉ s) : '-' ∉ pad2 s := by
  simp only [pad2]
  by_cases hl : s.length < 2
  · simp only [if_pos hl, List.mem_append, List.mem_replicate]
    rintro (⟨-, hc⟩ | hc)
    · exact absurd hc.symm (by decide)
    · exact h hc
  · simpa [hl] using h

/-! ## Civil calendar days (the model of JS `Date` values)

All core operations act at calendar-day granularity; the time-of-day
component of a JS `Date` (pinned to midnight or 23:59:59.999 by the code)
is dropped. -/

/-- A local calendar day: the model of a JS `Date` value. -/
structure Civil where
  year : Int
  month : Int
  day : Int
deriving DecidableEq, Repr

/-- Gregorian leap-year rule (part of built-in JS `Date` behaviour). -/
def isLeapYear (y : Int) : Bool := (y % 4 == 0 && y % 100 != 0) || y % 400 == 0

/-- Number of days in a month (part of built-in JS `Date` behaviour). -/
def daysInMonth (y m : Int) : Int :=
  if m = 2 then (if isLeapYear y then 29 else 28)
  else if m = 4 ∨ m = 6 ∨ m = 9 ∨ m = 11 then 30 else 31

/-- The values an actual JS `Date` can hold: month 1-12, day within the month. -/
def Civil.Valid (c : Civil) : Prop :=
  1 ≤ c.month ∧ c.month ≤ 12 ∧ 1 ≤ c.day ∧ c.day ≤ daysInMonth c.year c.month

instance (c : Civil) : Decidable c.Valid := by unfold Civil.Valid; infer_instance

/-- The following calendar day (JS `d.setDate(d.getDate() + 1)`). -/
def nextDay (c : Civil) : Civil :=
  if c.day < daysInMonth c.year c.month then ⟨c.year, c.month, c.day + 1⟩
  else if c.month < 12 then ⟨c.year, c.month + 1, 1⟩
  else ⟨c.year + 1, 1, 1⟩

/-- The preceding calendar day (JS `d.setDate(d.getDate() - 1)`). -/
def prevDay (c : Civil) : Civil :=
  if 1 < c.day then ⟨c.year, c.month, c.day - 1⟩
  else if 1 < c.month then ⟨c.year, c.month - 1, daysInMonth c.year (c.month - 1)⟩
  else ⟨c.year - 1, 12, 31⟩

/-- `n` calendar days after `c` (iterated JS `setDate` increments). -/
def addDaysN (c : Civil) : Nat → Civil
  | 0 => c
  | n + 1 => nextDay (addDaysN c n)

/-- `n` calendar days before `c` (a JS `setDate(getDate() - n)` call). -/
def subDaysN (c : Civil) : Nat → Civil
  | 0 => c
  | n + 1 => prevDay (subDaysN c n)

/-- Day count since 1970-01-01 (the civil-from-days conversion implicit in JS
`Date`; closed-form Gregorian formula). -/
def dayNumber (c : Civil) : Int :=
  let y := if c.month ≤ 2 then c.year - 1 else c.year
  let era := y.fdiv 400
  let yoe := y - era * 400
  let mp := if c.month ≤ 2 then c.month + 9 else c.month - 3
  let doy := (153 * mp + 2).fdiv 5 + c.day - 1
  let doe := yoe * 365 + yoe.fdiv 4 - yoe.fdiv 100 + doy
  era * 146097 + doe - 719468

/-- Civil day from a day count since 1970-01-01 (inverse Gregorian formula;
used only for out-of-range normalisation in `jsMakeDate`). -/
def civilFromDays (z : Int) : Civil :=
  let z' := z + 719468
  let era := z'.fdiv 146097
  let doe := z' - era * 146097
  let yoe := (doe - doe.fdiv 1460 + doe.fdiv 36524 - doe.fdiv 146096).fdiv 365
  let doy := doe - (365 * yoe + yoe.fdiv 4 - yoe.fdiv 100)
  let mp := (5 * doy + 2).fdiv 153
  let d := doy - (153 * mp + 2).fdiv 5 + 1
  let m := if mp < 10 then mp + 3 else mp - 9
  ⟨yoe + era * 400 + (if m ≤ 2 then 1 else 0), m, d⟩

/-- JS `d.getDay()`: 0 = Sunday … 6 = Saturday (1970-01-01 was a Thursday). -/
def weekday (c : Civil) : Int := (dayNumber c + 4).emod 7

/-- JS `new Date(year, monthIndex, day)`: month overflow folds into the year;
an in-range day-of-month denotes that civil day, an out-of-range one is
normalised by calendar-day arithmetic. -/
def jsMakeDate (y mIdx d : Int) : Civil :=
  let ym := y + mIdx.fdiv 12
  let m := mIdx.emod 12 + 1
  if 1 ≤ d ∧ d ≤ daysInMonth ym m then ⟨ym, m, d⟩
  else civilFromDays (dayNumber ⟨ym, m, 1⟩ + (d - 1))

/-- Chronological strict order on calendar days. -/
def chronLt (a b : Civil) : Prop :=
  a.year < b.year ∨ (a.year = b.year ∧
    (a.month < b.month ∨ (a.month = b.month ∧ a.day < b.day)))

/-- Chronological order on calendar days. -/
def chronLe (a b : Civil) : Prop := chronLt a b ∨ a = b

instance (a b : Civil) : Decidable (chronLt a b) := by unfold chronLt; infer_instance

instance (a b : Civil) : Decidable (chronLe a b) := by unfold chronLe; infer_instance

/-! ## `src/lib/dateUtils.ts` -/

/-- `formatDateToString`: render a date as `YYYY-MM-DD` with zero-padded
month and day (`getMonth()` is 0-based in JS, hence the `+ 1` in the source;
`Civil.month` is already 1-based). -/
def formatDateToString (date : Civil) : JStr :=
  intToChars date.year ++ '-' :: (pad2 (intToChars date.month) ++ '-' :: pad2 (intToChars date.day))

/-- `parseDate`: split a `YYYY-MM-DD` string on `'-'`, convert the pieces
with `Number`, and build a date via `new Date(year, month - 1, day)`.
(A string with fewer than three pieces would give JS an `undefined`/NaN
component, i.e. an Invalid Date; `⟨0, 0, 0⟩` stands in for that marker.) -/
def parseDate (dateString : JStr) : Civil :=
  match (splitDash dateString).map (fun p => (parseNat p : Int)) with
  | year :: month :: day :: _ => jsMakeDate year (month - 1) day
  | _ => ⟨0, 0, 0⟩

/-- `getWeekStart`: the Monday of the week containing `date` (Sunday steps
back 6 days, any other day steps back `weekday - 1` days). -/
def getWeekStart (date : Civil) : Civil :=
  let dayOfWeek := weekday date
  let daysToSubtract := if dayOfWeek = 0 then 6 else dayOfWeek - 1
  subDaysN date daysToSubtract.toNat

/-- `getWeekEnd`: the Sunday of the week containing `date`
(`weekStart + 6 days`; the 23:59:59.999 time component is dropped). -/
def getWeekEnd (date : Civil) : Civil := addDaysN (getWeekStart date) 6

/-- `getCurrentWeekRange`, with "now" passed explicitly. -/
def getCurrentWeekRange (today : Civil) : Civil × Civil :=
  (getWeekStart today, getWeekEnd today)

/-- `getWeekDates`: the 7 consecutive days from `weekStart`, each formatted
as `YYYY-MM-DD` (the source loop pushes `formatDateToString(current)` and
advances `current` by one day, 7 times). -/
def getWeekDates (weekStart : Civil) : List JStr :=
  (List.range 7).map (fun i => formatDateToString (addDaysN weekStart i))

/-- Short weekday names used by `toLocaleDateString('en-US', 「weekday: short」)`. -/
def shortDayName (w : Int) : JStr :=
  if w = 0 then "Sun".data else if w = 1 then "Mon".data
  else if w = 2 then "Tue".data else if w = 3 then "Wed".data
  else if w = 4 then "Thu".data else if w = 5 then "Fri".data else "Sat".data

/-- Short month names used by `toLocaleDateString('en-US', 「month: short」)`. -/
def shortMonthName (m : Int) : JStr :=
  if m = 1 then "Jan".data else if m = 2 then "Feb".data
  else if m = 3 then "Mar".data else if m = 4 then "Apr".data
  else if m = 5 then "May".data else if m = 6 then "Jun".data
  else if m = 7 then "Jul".data else if m = 8 then "Aug".data
  else if m = 9 then "Sep".data else if m = 10 then "Oct".data
  else if m = 11 then "Nov".data else "Dec".data

/-- `formatDateForDisplay`: e.g. `"Jan 29"`. -/
def formatDateForDisplay (date : Civil) : JStr :=
  shortMonthName date.month ++ ' ' :: intToChars date.day

/-- `formatWeekRange`: e.g. `"Jan 29 – Feb 4"`. -/
def formatWeekRange (start «end» : Civil) : JStr :=
  formatDateForDisplay start ++ ' ' :: '–' :: ' ' :: formatDateForDisplay «end»

/-! ## `src/lib/storage.ts`

The localStorage collaborator is out of scope (§1 of the spec); the stored
`Skill` and `Log` collections are passed explicitly to each query. -/

/-- A tracked habit. -/
structure Skill where
  id : String
  name : String
  weeklyGoal : Int
  createdAt : Int
deriving DecidableEq, Repr

/-- One execution record. -/
structure Log where
  id : String
  skillId : String
  date : JStr
  count : Int
deriving DecidableEq, Repr

/-- `logExistsForDate`: whether some log matches the (skillId, date) pair. -/
def logExistsForDate (logs : List Log) (skillId : String) (date : JStr) : Bool :=
  logs.any (fun log => log.skillId == skillId && log.date == date)

/-- `getLogsForSkill`. -/
def getLogsForSkill (logs : List Log) (skillId : String) : List Log :=
  logs.filter (fun log => log.skillId == skillId)

/-- `getLogsInDateRange`: inclusive on both ends, by direct JS string
comparison (`log.date >= startDate && log.date <= endDate`). -/
def getLogsInDateRange (logs : List Log) (startDate endDate : JStr) : List Log :=
  logs.filter (fun log => jsGeStr log.date startDate && jsLeStr log.date endDate)

/-! ## `src/lib/reportUtils.ts` -/

/-- Execution data for a single day. -/
structure DailyExecution where
  date : JStr
  dayName : JStr
  count : Int
deriving DecidableEq, Repr

/-- Progress data for a single skill. -/
structure SkillProgress where
  skillId : String
  skillName : String
  weeklyGoal : Int
  completedCount : Int
  progressPercentage : ℚ
  isComplete : Bool
  dailyBreakdown : List DailyExecution
deriving DecidableEq, Repr

/-- Complete weekly report data. -/
structure WeeklyReport where
  weekRange : JStr
  startDate : JStr
  endDate : JStr
  skills : List SkillProgress
  overallProgress : ℚ
  totalGoal : Int
  totalCompleted : Int
deriving DecidableEq, Repr

/-- `calculateSkillProgress`: filter the week's logs to this skill, sum the
counts, cap the percentage at 100, and build the daily breakdown.
(`dayLog?.count || 0` agrees with the `match` below on integer counts:
`0 || 0` is `0`.) -/
def calculateSkillProgress (skill : Skill) (weekLogs : List Log)
    (weekDates : List JStr) : SkillProgress :=
  let skillLogs := weekLogs.filter (fun log => log.skillId == skill.id)
  let completedCount := skillLogs.foldl (fun sum log => sum + log.count) (0 : Int)
  let rawPercentage : ℚ :=
    if skill.weeklyGoal > 0 then ((completedCount : ℚ) / (skill.weeklyGoal : ℚ)) * 100 else 0
  let progressPercentage := min rawPercentage 100
  let dailyBreakdown : List DailyExecution := weekDates.map (fun date =>
    let dayLog := skillLogs.find? (fun log => log.date == date)
    let dateObj := parseDate date
    { date := date
      dayName := shortDayName (weekday dateObj)
      count := match dayLog with | some log => log.count | none => 0 })
  { skillId := skill.id
    skillName := skill.name
    weeklyGoal := skill.weeklyGoal
    completedCount := completedCount
    progressPercentage := progressPercentage
    isComplete := decide (completedCount ≥ skill.weeklyGoal)
    dailyBreakdown := dailyBreakdown }

/-- `generateWeeklyReport`, with the stored collections and "now" passed
explicitly (the source reads them via `getSkills()` / `getLogs()` /
`new Date()`). -/
def generateWeeklyReport (storedSkills : List Skill) (storedLogs : List Log)
    (today : Civil) : WeeklyReport :=
  let range := getCurrentWeekRange today
  let start := range.1
  let «end» := range.2
  let startStr := formatDateToString start
  let endStr := formatDateToString «end»
  let skills := storedSkills
  let weekLogs := getLogsInDateRange storedLogs startStr endStr
  let weekDates := getWeekDates start
  let skillsProgress := skills.map (fun skill =>
    calculateSkillProgress skill weekLogs weekDates)
  let totalGoal := skills.foldl (fun sum skill => sum + skill.weeklyGoal) (0 : Int)
  let totalCompleted := skillsProgress.foldl (fun sum sp => sum + sp.completedCount) (0 : Int)
  let overallProgress : ℚ :=
    if totalGoal > 0 then min (((totalCompleted : ℚ) / (totalGoal : ℚ)) * 100) 100 else 0
  { weekRange := formatWeekRange start «end»
    startDate := startStr
    endDate := endStr
    skills := skillsProgress
    overallProgress := overallProgress
    totalGoal := totalGoal
    totalCompleted := totalCompleted }

/-- The three progress statuses. -/
inductive PStatus where
  | complete
  | onTrack
  | behind
deriving DecidableEq, Repr

/-- `getProgressStatus`, with "today" passed explicitly (the source reads
`new Date()`): `complete` when the goal is met, otherwise on-track iff the
completed count reaches the linear-pacing expectation
`(daysElapsed / 7) * weeklyGoal` with Monday = 1 … Sunday = 7. -/
def getProgressStatus (progress : SkillProgress) (today : Civil) : PStatus :=
  if progress.isComplete then .complete
  else
    let dayOfWeek := weekday today
    let daysElapsed := if dayOfWeek = 0 then 7 else dayOfWeek
    let expectedProgress : ℚ := ((daysElapsed : ℚ) / 7) * (progress.weeklyGoal : ℚ)
    if (progress.completedCount : ℚ) ≥ expectedProgress then .onTrack else .behind

/-! ## `src/hooks/useLogs.ts` and `src/hooks/useSkills.ts` -/

/-- `addOrUpdateLog`: if a log with the same id exists, replace it in place;
otherwise append the new log. -/
def addOrUpdateLog (logs : List Log) (log : Log) : List Log :=
  match logs.findIdx? (fun l => l.id == log.id) with
  | some existingIndex => logs.set existingIndex log
  | none => logs ++ [log]

/-- `deleteLog`: remove the log with the given id. -/
def deleteLog (logs : List Log) (logId : String) : List Log :=
  logs.filter (fun log => !(log.id == logId))

/-- `deleteSkill`: remove the skill and every log referencing it (the hook
filters the skills state and rewrites the persisted log collection). -/
def deleteSkill (skills : List Skill) (logs : List Log) (skillId : String) :
    List Skill × List Log :=
  (skills.filter (fun skill => !(skill.id == skillId)),
   logs.filter (fun log => !(log.skillId == skillId)))

/-! ## `src/components/ExecutionLogger.tsx` -/

/-- Outcome of a logging handler: either a user-facing error message with no
submission, or a log value passed to `onLogExecution`. -/
inductive LogAction where
  | reject (message : String)
  | submit (log : Log)
deriving DecidableEq, Repr

/-- `handleLogExecution` (detailed date-entry path): validate the skill
selection and the parsed count (`parseInt` result; `none` models NaN), then
reject when a log already exists for the selected (skillId, date) pair,
otherwise submit a fresh log. -/
def handleLogExecution (logs : List Log) (selectedSkillId : String)
    (selectedDate : JStr) (executionCount : Option Int) (freshId : String) :
    LogAction :=
  if selectedSkillId = "" then .reject "Please select a skill"
  else
    match executionCount with
    | none => .reject "Count must be at least 1"
    | some count =>
      if count < 1 then .reject "Count must be at least 1"
      else if logExistsForDate logs selectedSkillId selectedDate then
        .reject "Already logged this skill for this date. Edit or delete the existing log first."
      else .submit { id := freshId, skillId := selectedSkillId, date := selectedDate, count := count }

/-- `handleQuickLog`: if the skill already has a log for today, resubmit it
with its count incremented; otherwise submit a fresh log with count 1. -/
def handleQuickLog (logs : List Log) (skill : Skill) (today : JStr)
    (freshId : String) : LogAction :=
  if logExistsForDate logs skill.id today then
    match logs.find? (fun l => l.skillId == skill.id && l.date == today) with
    | some existingLog => .submit { existingLog with count := existingLog.count + 1 }
    | none => .reject ""
  else
    .submit { id := freshId, skillId := skill.id, date := today, count := 1 }

/-- The log collection after a handler outcome is applied: a submitted log
goes through `onLogExecution = addOrUpdateLog`; a rejection changes nothing. -/
def applyLogAction (logs : List Log) : LogAction → List Log
  | .reject _ => logs
  | .submit log => addOrUpdateLog logs log

/-- A complete quick-log action: `handleQuickLog` followed by the hook's
`addOrUpdateLog`. -/
def quickLog (logs : List Log) (skill : Skill) (today : JStr)
    (freshId : String) : List Log :=
  applyLogAction logs (handleQuickLog logs skill today freshId)

/-! ## Helper lemmas -/

theorem foldl_add_eq_sum {α : Type} (f : α → Int) (xs : List α) : ∀ init : Int,
    xs.foldl (fun s x => s + f x) init = init + (xs.map f).sum := by
  induction xs with
  | nil => intro init; simp
  | cons x xs ih =>
    intro init
    simp only [List.foldl_cons, List.map_cons, List.sum_cons, ih (init + f x)]
    ring

theorem daysInMonth_bounds (y m : Int) :
    28 ≤ daysInMonth y m ∧ daysInMonth y m ≤ 31 := by
  unfold daysInMonth
  split_ifs <;> omega

theorem formatDateToString_eq (c : Civil) (hy : 0 ≤ c.year) (hm : 0 ≤ c.month)
    (hd : 0 ≤ c.day) :
    formatDateToString c = natToChars c.year.toNat
      ++ '-' :: (pad2 (natToChars c.month.toNat) ++ '-' :: pad2 (natToChars c.day.toNat)) := by
  unfold formatDateToString intToChars
  rw [if_neg (by omega), if_neg (by omega), if_neg (by omega)]

theorem jsMakeDate_in_range (y m d : Int) (hm1 : 1 ≤ m) (hm2 : m ≤ 12)
    (hd1 : 1 ≤ d) (hd2 : d ≤ daysInMonth y m) :
    jsMakeDate y (m - 1) d = ⟨y, m, d⟩ := by
  unfold jsMakeDate
  rw [Int.fdiv_eq_ediv _ (by norm_num)]
  have hdiv : (m - 1) / 12 = 0 := by omega
  have hmod : (m - 1).emod 12 = m - 1 := Int.emod_eq_of_lt (by omega) (by omega)
  rw [hdiv, hmod]
  have : m - 1 + 1 = m := by omega
  rw [this]
  rw [if_pos ⟨hd1, by simpa using hd2⟩]
  simp

theorem parseDate_format (c : Civil) (hv : c.Valid) (hy : 0 ≤ c.year) :
    parseDate (formatDateToString c) = c := by
  obtain ⟨hm1, hm2, hd1, hd2⟩ := hv
  have hdm : c.day ≤ 31 := le_trans hd2 (daysInMonth_bounds _ _).2
  have hYnd : '-' ∉ natToChars c.year.toNat := natToChars_no_dash _
  have hMnd : '-' ∉ pad2 (natToChars c.month.toNat) :=
    pad2_no_dash _ (natToChars_no_dash _)
  have hDnd : '-' ∉ pad2 (natToChars c.day.toNat) :=
    pad2_no_dash _ (natToChars_no_dash _)
  rw [formatDateToString_eq c hy (by omega) (by omega)]
  unfold parseDate
  rw [splitDash_append _ _ hYnd, splitDash_append _ _ hMnd, splitDash_of_no_dash _ hDnd]
  simp only [List.map_cons, List.map_nil]
  rw [parseNat_natToChars, parseNat_pad2_natToChars c.month.toNat (by omega),
    parseNat_pad2_natToChars c.day.toNat (by omega)]
  have hY : (c.year.toNat : Int) = c.year := Int.toNat_of_nonneg hy
  have hM : (c.month.toNat : Int) = c.month := Int.toNat_of_nonneg (by omega)
  have hD : (c.day.toNat : Int) = c.day := Int.toNat_of_nonneg (by omega)
  rw [hY, hM, hD]
  rw [jsMakeDate_in_range c.year c.month c.day hm1 hm2 hd1 hd2]

/-! ### Lexicographic order of fixed-width decimal strings -/

theorem digitsNum_from (ds : List Nat) : ∀ a : Nat,
    ds.foldl (fun a d => a * 10 + d) a = a * 10 ^ ds.length + digitsNum ds := by
  induction ds with
  | nil => intro a; simp [digitsNum]
  | cons d ds ih =>
    intro a
    have hnum : digitsNum (d :: ds) = d * 10 ^ ds.length + digitsNum ds := by
      show List.foldl _ (0 * 10 + d) ds = _
      rw [ih (0 * 10 + d)]
      ring
    simp only [List.foldl_cons, List.length_cons, hnum, ih (a * 10 + d)]
    ring

theorem digitsNum_cons (d : Nat) (ds : List Nat) :
    digitsNum (d :: ds) = d * 10 ^ ds.length + digitsNum ds := by
  show List.foldl _ (0 * 10 + d) ds = _
  rw [digitsNum_from ds (0 * 10 + d)]
  ring

theorem digitsNum_lt_pow (ds : List Nat) (h : ∀ d ∈ ds, d < 10) :
    digitsNum ds < 10 ^ ds.length := by
  induction ds with
  | nil => simp [digitsNum]
  | cons d ds ih =>
    rw [digitsNum_cons]
    have hd : d < 10 := h d (by simp)
    have hds : digitsNum ds < 10 ^ ds.length := ih (fun x hx => h x (by simp [hx]))
    have h1 : d * 10 ^ ds.length + digitsNum ds < (d + 1) * 10 ^ ds.length := by
      have := Nat.add_lt_add_left hds (d * 10 ^ ds.length)
      calc d * 10 ^ ds.length + digitsNum ds
          < d * 10 ^ ds.length + 10 ^ ds.length := this
        _ = (d + 1) * 10 ^ ds.length := by ring
    have h2 : (d + 1) * 10 ^ ds.length ≤ 10 * 10 ^ ds.length :=
      Nat.mul_le_mul_right _ (by omega)
    have h3 : d * 10 ^ ds.length + digitsNum ds < 10 ^ (ds.length + 1) := by
      calc d * 10 ^ ds.length + digitsNum ds
          < (d + 1) * 10 ^ ds.length := h1
        _ ≤ 10 * 10 ^ ds.length := h2
        _ = 10 ^ (ds.length + 1) := by ring
    simpa using h3

theorem digitChar_lt_iff (d1 d2 : Nat) (h1 : d1 < 10) (h2 : d2 < 10) :
    digitChar d1 < digitChar d2 ↔ d1 < d2 := by
  interval_cases d1 <;> interval_cases d2 <;> decide

theorem jsLtStr_cons_same (c : Char) (a b : List Char) :
    jsLtStr (c :: a) (c :: b) = jsLtStr a b := by
  simp [jsLtStr]

theorem num_lt_num (d1 d2 x y P : Nat) (h : d1 < d2) (hx : x < P) :
    d1 * P + x < d2 * P + y := by
  have h1 : d1 * P + x < (d1 + 1) * P := by
    calc d1 * P + x < d1 * P + P := by omega
      _ = (d1 + 1) * P := by ring
  have h2 : (d1 + 1) * P ≤ d2 * P := Nat.mul_le_mul_right _ (by omega)
  omega

theorem jsLtStr_append_digits (ds1 : List Nat) : ∀ (ds2 : List Nat) (t1 t2 : List Char),
    ds1.length = ds2.length → (∀ d ∈ ds1, d < 10) → (∀ d ∈ ds2, d < 10) →
    jsLtStr (ds1.map digitChar ++ t1) (ds2.map digitChar ++ t2)
      = (if digitsNum ds1 < digitsNum ds2 then true
         else if digitsNum ds2 < digitsNum ds1 then false
         else jsLtStr t1 t2) := by
  induction ds1 with
  | nil =>
    intro ds2 t1 t2 hlen _ _
    have : ds2 = [] := List.eq_nil_of_length_eq_zero hlen.symm
    subst this
    simp
  | cons d1 r1 ih =>
    intro ds2 t1 t2 hlen hb1 hb2
    cases ds2 with
    | nil => simp at hlen
    | cons d2 r2 =>
      have hlen' : r1.length = r2.length := by simpa using hlen
      have hd1 : d1 < 10 := hb1 d1 (by simp)
      have hd2 : d2 < 10 := hb2 d2 (by simp)
      have hr1 : ∀ d ∈ r1, d < 10 := fun x hx => hb1 x (by simp [hx])
      have hr2 : ∀ d ∈ r2, d < 10 := fun x hx => hb2 x (by simp [hx])
      simp only [List.map_cons, List.cons_append, jsLtStr, List.append_eq]
      rcases lt_trichotomy d1 d2 with hlt | heq | hgt
      · rw [if_pos ((digitChar_lt_iff d1 d2 hd1 hd2).mpr hlt)]
        have : digitsNum (d1 :: r1) < digitsNum (d2 :: r2) := by
          rw [digitsNum_cons, digitsNum_cons, hlen']
          exact num_lt_num d1 d2 (digitsNum r1) (digitsNum r2) _ hlt
            (hlen' ▸ digitsNum_lt_pow r1 hr1)
        rw [if_pos this]
      · subst heq
        rw [if_neg (lt_irrefl _), if_neg (lt_irrefl _)]
        rw [ih r2 t1 t2 hlen' hr1 hr2]
        have he1 : digitsNum (d1 :: r1) < digitsNum (d1 :: r2) ↔ digitsNum r1 < digitsNum r2 := by
          rw [digitsNum_cons, digitsNum_cons, hlen']
          omega
        have he2 : digitsNum (d1 :: r2) < digitsNum (d1 :: r1) ↔ digitsNum r2 < digitsNum r1 := by
          rw [digitsNum_cons, digitsNum_cons, hlen']
          omega
        by_cases hc1 : digitsNum r1 < digitsNum r2
        · rw [if_pos hc1, if_pos (he1.mpr hc1)]
        · rw [if_neg hc1, if_neg (fun hc => hc1 (he1.mp hc))]
          by_cases hc2 : digitsNum r2 < digitsNum r1
          · rw [if_pos hc2, if_pos (he2.mpr hc2)]
          · rw [if_neg hc2, if_neg (fun hc => hc2 (he2.mp hc))]
      · rw [if_neg (by rw [digitChar_lt_iff d1 d2 hd1 hd2]; omega)]
        rw [if_pos ((digitChar_lt_iff d2 d1 hd2 hd1).mpr hgt)]
        have : digitsNum (d2 :: r2) < digitsNum (d1 :: r1) := by
          rw [digitsNum_cons, digitsNum_cons, hlen']
          exact num_lt_num d2 d1 (digitsNum r2) (digitsNum r1) _ hgt (digitsNum_lt_pow r2 hr2)
        rw [if_neg (by rw [digitsNum_cons, digitsNum_cons, hlen'] at this ⊢; omega), if_pos this]

theorem natDigits_length_four (n : Nat) (h1 : 1000 ≤ n) (h2 : n ≤ 9999) :
    (natDigits n).length = 4 := by
  rw [natDigits_of_ge n (by omega)]
  rw [natDigits_of_ge (n / 10) (by omega)]
  rw [natDigits_of_ge (n / 10 / 10) (by omega)]
  rw [natDigits_of_lt (n / 10 / 10 / 10) (by omega)]
  simp

theorem pad2_natToChars_map (m : Nat) (h : m ≤ 99) :
    pad2 (natToChars m) = ([m / 10, m % 10]).map digitChar := by
  rw [pad2_natToChars m h]
  rfl

theorem digitsNum_pair (a b : Nat) : digitsNum [a, b] = 10 * a + b := by
  simp [digitsNum]
  ring

theorem jsLtStr_digits (ds1 ds2 : List Nat) (hlen : ds1.length = ds2.length)
    (h1 : ∀ d ∈ ds1, d < 10) (h2 : ∀ d ∈ ds2, d < 10) :
    jsLtStr (ds1.map digitChar) (ds2.map digitChar)
      = (if digitsNum ds1 < digitsNum ds2 then true
         else if digitsNum ds2 < digitsNum ds1 then false
         else false) := by
  have h := jsLtStr_append_digits ds1 ds2 [] [] hlen h1 h2
  rw [List.append_nil, List.append_nil] at h
  exact h

theorem jsLtStr_format (c1 c2 : Civil) (hv1 : c1.Valid) (hv2 : c2.Valid)
    (ha : 1000 ≤ c1.year) (hb : c1.year ≤ 9999)
    (hc : 1000 ≤ c2.year) (hd : c2.year ≤ 9999) :
    jsLtStr (formatDateToString c1) (formatDateToString c2) = decide (chronLt c1 c2) := by
  obtain ⟨hm1, hm2, hd1, hd2⟩ := hv1
  obtain ⟨hm1', hm2', hd1', hd2'⟩ := hv2
  have hdm : c1.day ≤ 31 := le_trans hd2 (daysInMonth_bounds _ _).2
  have hdm' : c2.day ≤ 31 := le_trans hd2' (daysInMonth_bounds _ _).2
  rw [formatDateToString_eq c1 (by omega) (by omega) (by omega),
      formatDateToString_eq c2 (by omega) (by omega) (by omega)]
  rw [pad2_natToChars_map c1.month.toNat (by omega),
      pad2_natToChars_map c2.month.toNat (by omega),
      pad2_natToChars_map c1.day.toNat (by omega),
      pad2_natToChars_map c2.day.toNat (by omega)]
  simp only [natToChars]
  rw [jsLtStr_append_digits (natDigits c1.year.toNat) (natDigits c2.year.toNat) _ _
        (by rw [natDigits_length_four _ (by omega) (by omega),
                natDigits_length_four _ (by omega) (by omega)])
        (natDigits_lt_ten _) (natDigits_lt_ten _)]
  rw [digitsNum_natDigits, digitsNum_natDigits]
  rw [jsLtStr_cons_same]
  rw [jsLtStr_append_digits [c1.month.toNat / 10, c1.month.toNat % 10]
        [c2.month.toNat / 10, c2.month.toNat % 10] _ _ rfl
        (by intro x hx; simp at hx; omega) (by intro x hx; simp at hx; omega)]
  rw [jsLtStr_cons_same]
  rw [jsLtStr_digits [c1.day.toNat / 10, c1.day.toNat % 10]
        [c2.day.toNat / 10, c2.day.toNat % 10] rfl
        (by intro x hx; simp at hx; omega) (by intro x hx; simp at hx; omega)]
  rw [digitsNum_pair, digitsNum_pair, digitsNum_pair, digitsNum_pair]
  rw [show 10 * (c1.month.toNat / 10) + c1.month.toNat % 10 = c1.month.toNat by omega,
      show 10 * (c2.month.toNat / 10) + c2.month.toNat % 10 = c2.month.toNat by omega,
      show 10 * (c1.day.toNat / 10) + c1.day.toNat % 10 = c1.day.toNat by omega,
      show 10 * (c2.day.toNat / 10) + c2.day.toNat % 10 = c2.day.toNat by omega]
  split_ifs <;>
    (symm
     simp only [decide_eq_true_eq, decide_eq_false_iff_not, chronLt]
     omega)

theorem not_chronLt_iff (a b : Civil) : ¬ chronLt b a ↔ chronLe a b := by
  cases a
  cases b
  simp only [chronLt, chronLe, Civil.mk.injEq]
  omega

/-! ### Calendar-day stepping -/

theorem nextDay_valid (c : Civil) (hv : c.Valid) : (nextDay c).Valid := by
  obtain ⟨hm1, hm2, hd1, hd2⟩ := hv
  have hb1 := daysInMonth_bounds c.year (c.month + 1)
  have hb2 := daysInMonth_bounds (c.year + 1) 1
  unfold nextDay Civil.Valid
  split_ifs with h1 h2 <;> simp <;> omega

theorem nextDay_lt (c : Civil) (hv : c.Valid) : chronLt c (nextDay c) := by
  obtain ⟨hm1, hm2, hd1, hd2⟩ := hv
  unfold nextDay chronLt
  split_ifs with h1 h2 <;> simp

theorem nextDay_year_ge (c : Civil) : c.year ≤ (nextDay c).year := by
  unfold nextDay
  split_ifs <;> simp

theorem daysInMonth_december (y : Int) : daysInMonth y 12 = 31 := by
  unfold daysInMonth
  norm_num

theorem prevDay_valid (c : Civil) (hv : c.Valid) : (prevDay c).Valid := by
  obtain ⟨hm1, hm2, hd1, hd2⟩ := hv
  have hb1 := daysInMonth_bounds c.year (c.month - 1)
  have hb2 := daysInMonth_december (c.year - 1)
  have hb3 := daysInMonth_bounds c.year c.month
  unfold prevDay Civil.Valid
  split_ifs with h1 h2 <;> simp <;> omega

theorem chronLt_trans (a b c : Civil) (h1 : chronLt a b) (h2 : chronLt b c) :
    chronLt a c := by
  simp only [chronLt] at h1 h2 ⊢
  omega

theorem addDaysN_valid (c : Civil) (hv : c.Valid) : ∀ n, (addDaysN c n).Valid := by
  intro n
  induction n with
  | zero => exact hv
  | succ k ih => exact nextDay_valid _ ih

theorem addDaysN_year_ge (c : Civil) : ∀ n, c.year ≤ (addDaysN c n).year := by
  intro n
  induction n with
  | zero => exact le_refl _
  | succ k ih => exact le_trans ih (nextDay_year_ge _)

theorem addDaysN_mono (c : Civil) (hv : c.Valid) :
    ∀ i j, i < j → chronLt (addDaysN c i) (addDaysN c j) := by
  have step : ∀ i k, chronLt (addDaysN c i) (addDaysN c (i + k + 1)) := by
    intro i k
    induction k with
    | zero => exact nextDay_lt _ (addDaysN_valid c hv i)
    | succ k ih =>
      have hnext : chronLt (addDaysN c (i + k + 1)) (addDaysN c (i + k + 1 + 1)) :=
        nextDay_lt _ (addDaysN_valid c hv (i + k + 1))
      have heq : i + k + 1 + 1 = i + (k + 1) + 1 := by omega
      rw [heq] at hnext
      exact chronLt_trans _ _ _ ih hnext
  intro i j hij
  have heq : j = i + (j - i - 1) + 1 := by omega
  rw [heq]
  exact step i (j - i - 1)

theorem subDaysN_valid (c : Civil) (hv : c.Valid) : ∀ n, (subDaysN c n).Valid := by
  intro n
  induction n with
  | zero => exact hv
  | succ k ih => exact prevDay_valid _ ih

theorem subDaysN_year_invariant (c : Civil) (hv : c.Valid) : ∀ k, k ≤ 6 →
    (subDaysN c k).year = c.year ∨
      ((subDaysN c k).year = c.year - 1 ∧ (subDaysN c k).month = 12
        ∧ 32 - (k : Int) ≤ (subDaysN c k).day) := by
  intro k
  induction k with
  | zero => intro _; left; rfl
  | succ k ih =>
    intro hk
    have hx := ih (by omega)
    obtain ⟨hm1, hm2, hd1, hd2⟩ := subDaysN_valid c hv k
    have hstep : subDaysN c (k + 1) = prevDay (subDaysN c k) := rfl
    rw [hstep]
    unfold prevDay
    push_cast at hx ⊢
    split_ifs with h1 h2 <;> dsimp only <;> omega

theorem subDaysN_year_ge (c : Civil) (hv : c.Valid) (k : Nat) (hk : k ≤ 6) :
    c.year - 1 ≤ (subDaysN c k).year := by
  rcases subDaysN_year_invariant c hv k hk with h | ⟨h, -, -⟩ <;> omega

theorem weekday_bounds (c : Civil) : 0 ≤ weekday c ∧ weekday c < 7 :=
  ⟨Int.emod_nonneg _ (by norm_num), Int.emod_lt_of_pos _ (by norm_num)⟩

theorem getWeekStart_valid (d : Civil) (hv : d.Valid) : (getWeekStart d).Valid :=
  subDaysN_valid d hv _

theorem getWeekStart_sub_le_six (d : Civil) :
    (if weekday d = 0 then (6 : Int) else weekday d - 1).toNat ≤ 6 := by
  have hw := weekday_bounds d
  split_ifs <;> omega

theorem getWeekStart_year_ge (d : Civil) (hv : d.Valid) :
    d.year - 1 ≤ (getWeekStart d).year := by
  unfold getWeekStart
  exact subDaysN_year_ge d hv _ (getWeekStart_sub_le_six d)

/-! ### In-place replacement behaviour of addOrUpdateLog -/

theorem addOrUpdateLog_replace (logs : List Log) : ∀ (l0 upd : Log),
    l0 ∈ logs → (logs.map Log.id).Nodup → upd.id = l0.id →
    ∃ pre post, logs = pre ++ l0 :: post
      ∧ addOrUpdateLog logs upd = pre ++ upd :: post := by
  induction logs with
  | nil => intro l0 upd hmem _ _; simp at hmem
  | cons h t ih =>
    intro l0 upd hmem hnodup hid
    rw [List.map_cons, List.nodup_cons] at hnodup
    by_cases hh : h.id = upd.id
    · have hl0 : l0 = h := by
        rcases List.mem_cons.mp hmem with rfl | hmt
        · rfl
        · exfalso
          have hmap : l0.id ∈ t.map Log.id := List.mem_map_of_mem _ hmt
          rw [← hid, ← hh] at hmap
          exact hnodup.1 hmap
      refine ⟨[], t, by simp [hl0], ?_⟩
      unfold addOrUpdateLog
      rw [List.findIdx?_cons, if_pos (beq_iff_eq.mpr hh)]
      rfl
    · have hmt : l0 ∈ t := by
        rcases List.mem_cons.mp hmem with rfl | hmt
        · exact absurd hid.symm hh
        · exact hmt
      obtain ⟨pre, post, heq, hres⟩ := ih l0 upd hmt hnodup.2 hid
      refine ⟨h :: pre, post, by simp [heq], ?_⟩
      unfold addOrUpdateLog at hres ⊢
      rw [List.findIdx?_cons, if_neg (by simpa using fun hc => hh hc),
        List.findIdx?_start_succ]
      cases hcase : t.findIdx? (fun l => l.id == upd.id) with
      | none =>
        rw [hcase] at hres
        simp only [hcase, Option.map_none']
        simpa using hres
      | some i =>
        rw [hcase] at hres
        simp only [hcase, Option.map_some']
        show (h :: t).set (i + 1) upd = h :: pre ++ upd :: post
        simpa using hres

/-! ## Claim theorems -/

/-- Claim C3: for every valid calendar date representable as a `YYYY-MM-DD`
string (year 1000-9999), `parseDate` recovers exactly the date that
`formatDateToString` rendered: `parseDate` is a left inverse of
`formatDateToString` on calendar days. -/
theorem parseDate_formatDateToString (d : Civil) (hv : d.Valid)
    (hy1 : 1000 ≤ d.year) (hy2 : d.year ≤ 9999) :
    parseDate (formatDateToString d) = d :=
  parseDate_format d hv (by omega)

/-- Claim C3 witness: the round trip at 2024-01-03. -/
theorem parseDate_formatDateToString_witness :
    Civil.Valid ⟨2024, 1, 3⟩
    ∧ parseDate (formatDateToString ⟨2024, 1, 3⟩) = ⟨2024, 1, 3⟩ :=
  ⟨by decide, parseDate_formatDateToString ⟨2024, 1, 3⟩ (by decide) (by decide) (by decide)⟩

/-- Claim C1: for every skill and week-log list, `calculateSkillProgress`
returns a `completedCount` equal to the sum of `count` over exactly the logs
whose `skillId` equals the skill's id, a `progressPercentage` equal to
`min (completedCount / weeklyGoal * 100) 100` when `weeklyGoal > 0` and `0`
when `weeklyGoal ≤ 0` (no division-by-zero fault), and an `isComplete` flag
that is true iff the uncapped `completedCount` reaches `weeklyGoal`. -/
theorem calculateSkillProgress_spec (skill : Skill) (weekLogs : List Log)
    (weekDates : List JStr) :
    (calculateSkillProgress skill weekLogs weekDates).completedCount
        = ((weekLogs.filter (fun l => l.skillId == skill.id)).map Log.count).sum
    ∧ (calculateSkillProgress skill weekLogs weekDates).progressPercentage
        = (if skill.weeklyGoal > 0
           then min (((calculateSkillProgress skill weekLogs weekDates).completedCount : ℚ)
                      / (skill.weeklyGoal : ℚ) * 100) 100
           else 0)
    ∧ ((calculateSkillProgress skill weekLogs weekDates).isComplete = true
        ↔ (calculateSkillProgress skill weekLogs weekDates).completedCount ≥ skill.weeklyGoal) := by
  refine ⟨?_, ?_, ?_⟩
  · simp only [calculateSkillProgress]
    rw [foldl_add_eq_sum Log.count]
    simp
  · simp only [calculateSkillProgress]
    by_cases hg : skill.weeklyGoal > 0
    · simp [hg]
    · simp [hg]
  · simp only [calculateSkillProgress]
    simp [ge_iff_le, decide_eq_true_iff]

/-- Claim C10: a skill with `weeklyGoal = 0` (the defensive
out-of-validation case) is always reported complete — `isComplete` is
`completedCount >= weeklyGoal` and the completed count is non-negative for
any week logs (their counts are non-negative per the data model), including
none — while its `progressPercentage` is 0. -/
theorem calculateSkillProgress_goal_zero (skill : Skill) (weekLogs : List Log)
    (weekDates : List JStr) (hgoal : skill.weeklyGoal = 0)
    (hcounts : ∀ l ∈ weekLogs, 0 ≤ l.count) :
    (calculateSkillProgress skill weekLogs weekDates).isComplete = true
    ∧ (calculateSkillProgress skill weekLogs weekDates).progressPercentage = 0 := by
  have hsum : 0 ≤ ((weekLogs.filter (fun l => l.skillId == skill.id)).map Log.count).sum := by
    apply List.sum_nonneg
    intro x hx
    simp only [List.mem_map] at hx
    obtain ⟨l, hl, rfl⟩ := hx
    exact hcounts l (List.mem_of_mem_filter hl)
  constructor
  · simp only [calculateSkillProgress]
    rw [foldl_add_eq_sum Log.count]
    simpa [hgoal] using hsum
  · simp only [calculateSkillProgress]
    simp [hgoal]

/-- Claim C10 witness: a concrete goal-0 skill with no logs is reported
complete with percentage 0. -/
theorem calculateSkillProgress_goal_zero_witness :
    (calculateSkillProgress ⟨"s0", "Guitar", 0, 0⟩ [] []).isComplete = true
    ∧ (calculateSkillProgress ⟨"s0", "Guitar", 0, 0⟩ [] []).progressPercentage = 0 :=
  calculateSkillProgress_goal_zero ⟨"s0", "Guitar", 0, 0⟩ [] [] rfl (by simp)

/-- Claim C9: `getProgressStatus` returns `complete` iff the progress is
complete; otherwise, with `daysElapsed` the current weekday remapped so
Monday = 1 … Sunday = 7, it returns `on-track` iff
`completedCount >= (daysElapsed / 7) * weeklyGoal` and `behind` otherwise. -/
theorem getProgressStatus_spec (progress : SkillProgress) (today : Civil) :
    (getProgressStatus progress today = .complete ↔ progress.isComplete = true)
    ∧ (progress.isComplete = false →
        ((getProgressStatus progress today = .onTrack ↔
            (progress.completedCount : ℚ) ≥
              (((if weekday today = 0 then 7 else weekday today) : ℤ) : ℚ) / 7
                * (progress.weeklyGoal : ℚ))
          ∧ (getProgressStatus progress today = .behind ↔
            ¬ (progress.completedCount : ℚ) ≥
              (((if weekday today = 0 then 7 else weekday today) : ℤ) : ℚ) / 7
                * (progress.weeklyGoal : ℚ)))) := by
  constructor
  · unfold getProgressStatus
    by_cases hc : progress.isComplete
    · simp [hc]
    · simp only [hc, Bool.false_eq_true, if_false]
      split <;> split <;> simp [hc]
  · intro hc
    unfold getProgressStatus
    simp only [hc, Bool.false_eq_true, if_false]
    constructor
    · split <;> simp_all
    · split <;> simp_all

/-- Claim C9 witness: with `weeklyGoal = 7` on Wednesday (2024-01-03,
`daysElapsed = 3`), a completed count of 3 is `on-track` and 2 is `behind`. -/
theorem getProgressStatus_spec_witness :
    getProgressStatus ⟨"s1", "Guitar", 7, 3, 3 / 7 * 100, false, []⟩ ⟨2024, 1, 3⟩ = .onTrack
    ∧ getProgressStatus ⟨"s1", "Guitar", 7, 2, 2 / 7 * 100, false, []⟩ ⟨2024, 1, 3⟩ = .behind := by
  have hw : weekday ⟨2024, 1, 3⟩ = 3 := by decide
  constructor
  · exact (((getProgressStatus_spec ⟨"s1", "Guitar", 7, 3, 3 / 7 * 100, false, []⟩
      ⟨2024, 1, 3⟩).2 rfl).1).mpr (by rw [hw]; norm_num)
  · exact (((getProgressStatus_spec ⟨"s1", "Guitar", 7, 2, 2 / 7 * 100, false, []⟩
      ⟨2024, 1, 3⟩).2 rfl).2).mpr (by rw [hw]; norm_num)

/-- Claim C8: `deleteSkill` removes the skill with the given id and every
log whose `skillId` equals it, and nothing else: a skill survives iff its id
differs, and a log survives (unchanged, as the same record) iff its
`skillId` differs. -/
theorem deleteSkill_spec (skills : List Skill) (logs : List Log) (skillId : String) :
    (∀ s : Skill, s ∈ (deleteSkill skills logs skillId).1 ↔ s ∈ skills ∧ s.id ≠ skillId)
    ∧ (∀ l : Log, l ∈ (deleteSkill skills logs skillId).2 ↔ l ∈ logs ∧ l.skillId ≠ skillId) := by
  constructor
  · intro s
    simp [deleteSkill, List.mem_filter]
  · intro l
    simp [deleteSkill, List.mem_filter]

/-- Claim C7: when a log already exists for the selected (skillId, date)
pair, the detailed date-entry path rejects the submission with a user-facing
error message and the log collection is left unchanged. -/
theorem handleLogExecution_rejects_duplicate (logs : List Log)
    (selectedSkillId : String) (selectedDate : JStr)
    (executionCount : Option Int) (freshId : String)
    (hdup : logExistsForDate logs selectedSkillId selectedDate = true) :
    (∃ msg, handleLogExecution logs selectedSkillId selectedDate executionCount freshId
        = .reject msg)
    ∧ applyLogAction logs
        (handleLogExecution logs selectedSkillId selectedDate executionCount freshId) = logs := by
  unfold handleLogExecution
  by_cases hsid : selectedSkillId = ""
  · simp [hsid, applyLogAction]
  · cases executionCount with
    | none => simp [hsid, applyLogAction]
    | some count =>
      by_cases hcount : count < 1
      · simp [hsid, hcount, applyLogAction]
      · simp [hsid, hcount, hdup, applyLogAction]

/-- Claim C7 witness: with a stored log for ("s1", 2024-01-03), submitting
for that same pair is rejected and the collection is unchanged. -/
theorem handleLogExecution_rejects_duplicate_witness :
    logExistsForDate [⟨"l1", "s1", "2024-01-03".data, 2⟩] "s1" "2024-01-03".data = true
    ∧ (∃ msg, handleLogExecution [⟨"l1", "s1", "2024-01-03".data, 2⟩] "s1"
        "2024-01-03".data (some 1) "l2" = .reject msg)
    ∧ applyLogAction [⟨"l1", "s1", "2024-01-03".data, 2⟩]
        (handleLogExecution [⟨"l1", "s1", "2024-01-03".data, 2⟩] "s1"
          "2024-01-03".data (some 1) "l2") = [⟨"l1", "s1", "2024-01-03".data, 2⟩] :=
  ⟨by decide,
   (handleLogExecution_rejects_duplicate _ _ _ _ _ (by decide)).1,
   (handleLogExecution_rejects_duplicate _ _ _ _ _ (by decide)).2⟩

/-- Claim C6: when every (skillId, date) pair has at most one log, log ids
are distinct, and the skill already has a log for today, a quick-log action
(`handleQuickLog` followed by `addOrUpdateLog`) leaves exactly one log for
that pair with its count increased by exactly 1, adds no new entry (the
collection's length is unchanged), and preserves the
at-most-one-log-per-pair invariant. -/
theorem quickLog_increments (logs : List Log) (skill : Skill) (today : JStr)
    (freshId : String)
    (hinv : ∀ sid dt, logs.countP (fun l => l.skillId == sid && l.date == dt) ≤ 1)
    (hnodup : (logs.map Log.id).Nodup)
    (hdup : logExistsForDate logs skill.id today = true) :
    (quickLog logs skill today freshId).length = logs.length
    ∧ (∃ l0, logs.filter (fun l => l.skillId == skill.id && l.date == today) = [l0]
        ∧ (quickLog logs skill today freshId).filter
            (fun l => l.skillId == skill.id && l.date == today)
          = [{ l0 with count := l0.count + 1 }])
    ∧ (∀ sid dt, (quickLog logs skill today freshId).countP
        (fun l => l.skillId == sid && l.date == dt) ≤ 1) := by
  have hfind : ∃ l0, logs.find? (fun l => l.skillId == skill.id && l.date == today)
      = some l0 := by
    cases hcase : logs.find? (fun l => l.skillId == skill.id && l.date == today) with
    | some l0 => exact ⟨l0, rfl⟩
    | none =>
      exfalso
      have hnone := List.find?_eq_none.mp hcase
      have hex : ∃ l ∈ logs, (l.skillId == skill.id && l.date == today) = true := by
        simpa [logExistsForDate, List.any_eq_true] using hdup
      obtain ⟨l, hl, hp⟩ := hex
      exact hnone l hl hp
  obtain ⟨l0, hfind⟩ := hfind
  have hl0mem : l0 ∈ logs := List.mem_of_find?_eq_some hfind
  have hl0p : (l0.skillId == skill.id && l0.date == today) = true := by
    have h := List.find?_some hfind
    exact h
  have hq : quickLog logs skill today freshId
      = addOrUpdateLog logs { l0 with count := l0.count + 1 } := by
    unfold quickLog handleQuickLog
    rw [if_pos (by simpa using hdup), hfind]
    rfl
  obtain ⟨pre, post, heq, hres⟩ :=
    addOrUpdateLog_replace logs l0 { l0 with count := l0.count + 1 } hl0mem hnodup rfl
  rw [hq, hres]
  have hcount := hinv skill.id today
  rw [heq, List.countP_append, List.countP_cons, if_pos hl0p] at hcount
  have hpre : ∀ a ∈ pre, ¬ (a.skillId == skill.id && a.date == today) = true :=
    List.countP_eq_zero.mp (by omega)
  have hpost : ∀ a ∈ post, ¬ (a.skillId == skill.id && a.date == today) = true :=
    List.countP_eq_zero.mp (by omega)
  have hupd : (({ l0 with count := l0.count + 1 } : Log).skillId == skill.id
      && ({ l0 with count := l0.count + 1 } : Log).date == today) = true := hl0p
  refine ⟨?_, ⟨l0, ?_, ?_⟩, ?_⟩
  · rw [heq]
    simp
  · rw [heq, List.filter_append, List.filter_cons, if_pos hl0p,
      List.filter_eq_nil_iff.mpr hpre, List.filter_eq_nil_iff.mpr hpost]
    rfl
  · rw [List.filter_append, List.filter_cons, if_pos hupd,
      List.filter_eq_nil_iff.mpr hpre, List.filter_eq_nil_iff.mpr hpost]
    rfl
  · intro sid dt
    have h := hinv sid dt
    rw [heq, List.countP_append, List.countP_cons] at h
    rw [List.countP_append, List.countP_cons]
    exact h

/-- Claim C6 witness: quick-logging a skill that already has a log (count 2)
for today yields the same single log for the pair with count 3 and no new
entry, and the invariant still holds for the concrete pair. -/
theorem quickLog_increments_witness :
    (quickLog [⟨"l1", "s1", "2024-01-03".data, 2⟩] ⟨"s1", "Guitar", 5, 0⟩
        "2024-01-03".data "l2").length = 1
    ∧ (∃ l0, ([⟨"l1", "s1", "2024-01-03".data, 2⟩] : List Log).filter
          (fun l => l.skillId == "s1" && l.date == "2024-01-03".data) = [l0]
        ∧ (quickLog [⟨"l1", "s1", "2024-01-03".data, 2⟩] ⟨"s1", "Guitar", 5, 0⟩
              "2024-01-03".data "l2").filter
            (fun l => l.skillId == "s1" && l.date == "2024-01-03".data)
          = [{ l0 with count := l0.count + 1 }]) := by
  have h := quickLog_increments [⟨"l1", "s1", "2024-01-03".data, 2⟩]
    ⟨"s1", "Guitar", 5, 0⟩ "2024-01-03".data "l2"
    (by intro sid dt; simp [List.countP_cons]; split <;> omega)
    (by simp) (by decide)
  exact ⟨h.1, h.2.1⟩

/-- Claim C5: for every valid date `d` (of the common era),
`getWeekDates (getWeekStart d)` is a sequence of exactly 7 date strings,
strictly increasing in calendar order, whose first element formats
`getWeekStart d` and whose last element formats the calendar day of
`getWeekEnd d`. The model works on calendar days, not elapsed clock time,
so this holds regardless of DST transitions within the week. -/
theorem getWeekDates_spec (d : Civil) (hv : d.Valid) (hy : 1 ≤ d.year) :
    (getWeekDates (getWeekStart d)).length = 7
    ∧ (getWeekDates (getWeekStart d)).Pairwise
        (fun a b => chronLt (parseDate a) (parseDate b))
    ∧ (getWeekDates (getWeekStart d)).head? = some (formatDateToString (getWeekStart d))
    ∧ (getWeekDates (getWeekStart d)).getLast?
        = some (formatDateToString (getWeekEnd d)) := by
  have hwsv : (getWeekStart d).Valid := getWeekStart_valid d hv
  have hwsy : 0 ≤ (getWeekStart d).year := by
    have := getWeekStart_year_ge d hv
    omega
  refine ⟨?_, ?_, ?_, ?_⟩
  · simp [getWeekDates]
  · unfold getWeekDates
    rw [List.pairwise_map]
    apply List.Pairwise.imp ?_ (List.pairwise_lt_range 7)
    intro i j hij
    rw [parseDate_format _ (addDaysN_valid _ hwsv i) (le_trans hwsy (addDaysN_year_ge _ i)),
        parseDate_format _ (addDaysN_valid _ hwsv j) (le_trans hwsy (addDaysN_year_ge _ j))]
    exact addDaysN_mono _ hwsv i j hij
  · rfl
  · rfl

/-- Claim C5 witness: the week containing Wednesday 2024-01-03. -/
theorem getWeekDates_spec_witness :
    (getWeekDates (getWeekStart ⟨2024, 1, 3⟩)).length = 7
    ∧ (getWeekDates (getWeekStart ⟨2024, 1, 3⟩)).Pairwise
        (fun a b => chronLt (parseDate a) (parseDate b))
    ∧ (getWeekDates (getWeekStart ⟨2024, 1, 3⟩)).head?
        = some (formatDateToString (getWeekStart ⟨2024, 1, 3⟩))
    ∧ (getWeekDates (getWeekStart ⟨2024, 1, 3⟩)).getLast?
        = some (formatDateToString (getWeekEnd ⟨2024, 1, 3⟩)) :=
  getWeekDates_spec ⟨2024, 1, 3⟩ (by decide) (by decide)

/-- Claim C4: for valid dates representable as `YYYY-MM-DD` strings,
`formatDateToString d1 <= formatDateToString d2` under JS lexicographic
string comparison holds iff `d1`'s calendar day is on or before `d2`'s; and
consequently `getLogsInDateRange`'s inclusive filtering by direct string
comparison selects exactly the logs whose dates fall chronologically within
the range. -/
theorem formatDateToString_lex_spec (d1 d2 : Civil) (h1 : d1.Valid) (h2 : d2.Valid)
    (ha : 1000 ≤ d1.year) (hb : d1.year ≤ 9999)
    (hc : 1000 ≤ d2.year) (hd : d2.year ≤ 9999) :
    (jsLeStr (formatDateToString d1) (formatDateToString d2) = true ↔ chronLe d1 d2)
    ∧ (∀ (logs : List Log) (l : Log) (ld : Civil),
        ld.Valid → 1000 ≤ ld.year → ld.year ≤ 9999 →
        l.date = formatDateToString ld → l ∈ logs →
        (l ∈ getLogsInDateRange logs (formatDateToString d1) (formatDateToString d2)
          ↔ chronLe d1 ld ∧ chronLe ld d2)) := by
  have key : ∀ (a b : Civil), a.Valid → b.Valid →
      1000 ≤ a.year → a.year ≤ 9999 → 1000 ≤ b.year → b.year ≤ 9999 →
      (jsLeStr (formatDateToString a) (formatDateToString b) = true ↔ chronLe a b) := by
    intro a b hva hvb hya hya' hyb hyb'
    unfold jsLeStr
    rw [jsLtStr_format b a hvb hva hyb hyb' hya hya']
    rw [Bool.not_eq_true', decide_eq_false_iff_not]
    exact not_chronLt_iff a b
  refine ⟨key d1 d2 h1 h2 ha hb hc hd, ?_⟩
  intro logs l ld hvld hld1 hld2 hdate hmem
  unfold getLogsInDateRange
  rw [List.mem_filter]
  simp only [hmem, true_and]
  rw [hdate, Bool.and_eq_true]
  constructor
  · rintro ⟨hge, hle⟩
    exact ⟨(key d1 ld h1 hvld ha hb hld1 hld2).mp hge,
           (key ld d2 hvld h2 hld1 hld2 hc hd).mp hle⟩
  · rintro ⟨hc1, hc2⟩
    exact ⟨(key d1 ld h1 hvld ha hb hld1 hld2).mpr hc1,
           (key ld d2 hvld h2 hld1 hld2 hc hd).mpr hc2⟩

/-- Claim C4 witness: 2024-01-01 ≤ 2024-01-07 as strings and in calendar
order, and a log dated 2024-01-03 is selected by
`getLogsInDateRange` for that week. -/
theorem formatDateToString_lex_spec_witness :
    jsLeStr (formatDateToString ⟨2024, 1, 1⟩) (formatDateToString ⟨2024, 1, 7⟩) = true
    ∧ (⟨"l1", "s1", "2024-01-03".data, 1⟩ : Log) ∈
        getLogsInDateRange [⟨"l1", "s1", "2024-01-03".data, 1⟩]
          (formatDateToString ⟨2024, 1, 1⟩) (formatDateToString ⟨2024, 1, 7⟩) := by
  have h := formatDateToString_lex_spec ⟨2024, 1, 1⟩ ⟨2024, 1, 7⟩
    (by decide) (by decide) (by decide) (by decide) (by decide) (by decide)
  refine ⟨h.1.mpr (by decide), ?_⟩
  have h2 := h.2 [⟨"l1", "s1", "2024-01-03".data, 1⟩] ⟨"l1", "s1", "2024-01-03".data, 1⟩
    ⟨2024, 1, 3⟩ (by decide) (by decide) (by decide) (by decide) (by simp)
  exact h2.mpr (by decide)

/-- Claim C2: `generateWeeklyReport` returns `totalGoal` = sum of all
skills' `weeklyGoal`, `totalCompleted` = sum of every `SkillProgress`'s
`completedCount`, and `overallProgress` =
`min (totalCompleted / totalGoal * 100) 100` when `totalGoal > 0` and `0`
otherwise; in particular with zero skills the report has an empty skills
sequence and `overallProgress = 0`. -/
theorem generateWeeklyReport_spec (storedSkills : List Skill)
    (storedLogs : List Log) (today : Civil) :
    (generateWeeklyReport storedSkills storedLogs today).totalGoal
        = (storedSkills.map Skill.weeklyGoal).sum
    ∧ (generateWeeklyReport storedSkills storedLogs today).totalCompleted
        = ((generateWeeklyReport storedSkills storedLogs today).skills.map
            SkillProgress.completedCount).sum
    ∧ (generateWeeklyReport storedSkills storedLogs today).overallProgress
        = (if (generateWeeklyReport storedSkills storedLogs today).totalGoal > 0
           then min (((generateWeeklyReport storedSkills storedLogs today).totalCompleted : ℚ)
                      / ((generateWeeklyReport storedSkills storedLogs today).totalGoal : ℚ)
                      * 100) 100
           else 0)
    ∧ (storedSkills = [] →
        (generateWeeklyReport storedSkills storedLogs today).skills = []
        ∧ (generateWeeklyReport storedSkills storedLogs today).overallProgress = 0) := by
  refine ⟨?_, ?_, ?_, ?_⟩
  · simp only [generateWeeklyReport]
    rw [foldl_add_eq_sum Skill.weeklyGoal]
    simp
  · simp only [generateWeeklyReport]
    rw [foldl_add_eq_sum SkillProgress.completedCount]
    simp
  · simp only [generateWeeklyReport]
  · intro hempty
    subst hempty
    simp [generateWeeklyReport]

/-- Claim C2 witness: two skills with goals 4 and 6 and in-week completed
counts 4 and 3 yield `totalGoal = 10`, `totalCompleted = 7`,
`overallProgress = 70`; with zero skills the report has an empty skills
sequence and `overallProgress = 0`. -/
theorem generateWeeklyReport_spec_witness :
    (generateWeeklyReport
        [⟨"s1", "A", 4, 0⟩, ⟨"s2", "B", 6, 0⟩]
        [⟨"l1", "s1", "2024-01-01".data, 4⟩, ⟨"l2", "s2", "2024-01-02".data, 3⟩]
        ⟨2024, 1, 3⟩).totalGoal = 10
    ∧ (generateWeeklyReport
        [⟨"s1", "A", 4, 0⟩, ⟨"s2", "B", 6, 0⟩]
        [⟨"l1", "s1", "2024-01-01".data, 4⟩, ⟨"l2", "s2", "2024-01-02".data, 3⟩]
        ⟨2024, 1, 3⟩).totalCompleted = 7
    ∧ (generateWeeklyReport
        [⟨"s1", "A", 4, 0⟩, ⟨"s2", "B", 6, 0⟩]
        [⟨"l1", "s1", "2024-01-01".data, 4⟩, ⟨"l2", "s2", "2024-01-02".data, 3⟩]
        ⟨2024, 1, 3⟩).overallProgress = 70
    ∧ (generateWeeklyReport [] [] ⟨2024, 1, 3⟩).skills = []
    ∧ (generateWeeklyReport [] [] ⟨2024, 1, 3⟩).overallProgress = 0 := by
  have hgoal :
      (generateWeeklyReport
        [⟨"s1", "A", 4, 0⟩, ⟨"s2", "B", 6, 0⟩]
        [⟨"l1", "s1", "2024-01-01".data, 4⟩, ⟨"l2", "s2", "2024-01-02".data, 3⟩]
        ⟨2024, 1, 3⟩).totalGoal = 10 := by decide
  have hcompleted :
      (generateWeeklyReport
        [⟨"s1", "A", 4, 0⟩, ⟨"s2", "B", 6, 0⟩]
        [⟨"l1", "s1", "2024-01-01".data, 4⟩, ⟨"l2", "s2", "2024-01-02".data, 3⟩]
        ⟨2024, 1, 3⟩).totalCompleted = 7 := by decide
  have hprog := (generateWeeklyReport_spec
        [⟨"s1", "A", 4, 0⟩, ⟨"s2", "B", 6, 0⟩]
        [⟨"l1", "s1", "2024-01-01".data, 4⟩, ⟨"l2", "s2", "2024-01-02".data, 3⟩]
        ⟨2024, 1, 3⟩).2.2.1
  have hempty := (generateWeeklyReport_spec [] [] ⟨2024, 1, 3⟩).2.2.2 rfl
  refine ⟨hgoal, hcompleted, ?_, hempty.1, hempty.2⟩
  rw [hprog, hgoal, hcompleted]
  norm_num [min_def]

end SkillTracker
